import Mathlib

/-!
# Verification of the Invoice-AI push scripts

Shallow embedding of the file-collection and repository-sync logic of
`push_to_github.py` and `push_to_github_v2.py`, together with theorems
settling the specification claims about them.

Bytes are modelled as natural numbers (each in `0..255`), byte strings as
`List Nat`, and Python strings as Lean `String`/`List Char` (both are
sequences of Unicode code points).
-/

/-! ## String utilities (models of the Python primitives used) -/

/-- `prefixOfList needle hay`: does `hay` start with `needle`?
Models the anchored step of Python's `in` substring test. -/
def prefixOfList : List Char → List Char → Bool
  | [], _ => true
  | _ :: _, [] => false
  | a :: as, b :: bs => a == b && prefixOfList as bs

/-- `substrOfList needle hay`: does `needle` occur contiguously in `hay`?
Models Python's `needle in hay` on strings. -/
def substrOfList (needle : List Char) : List Char → Bool
  | [] => prefixOfList needle []
  | c :: t => prefixOfList needle (c :: t) || substrOfList needle t

/-- Python `needle in haystack` on strings. -/
def isSubstr (needle haystack : String) : Bool :=
  substrOfList needle.toList haystack.toList

/-- Lexicographic `≤` on code-point lists; models Python string `<=`
(as used by `sorted`). -/
def charListLe : List Char → List Char → Bool
  | [], _ => true
  | _ :: _, [] => false
  | a :: as, b :: bs => if a < b then true else if b < a then false else charListLe as bs

/-- Python string `<=` by code points. -/
def strLe (a b : String) : Bool := charListLe a.toList b.toList

/-! ## The ignore predicate (`should_ignore` in both scripts) -/

/-- `should_ignore(path, ignore_patterns)` from both scripts: a path is
ignored when some pattern is a substring of `str(path)` or equals
`path.name` (the final segment) exactly.  `pathStr` models `str(path)` and
`name` models `path.name`. -/
def should_ignore (pathStr name : String) (ignore_patterns : List String) : Bool :=
  ignore_patterns.any (fun pat => isSubstr pat pathStr || name == pat)

/-! ## Local file-system model and the directory walk (`collect_files`)

`os.walk(".")` visits the current directory first (its regular files in
scandir order), then descends, in order, into those subdirectories that
survive the in-place pruning
`dirs[:] = [d for d in dirs if not d.startswith(".") and d not in ["venv", "__pycache__"]]`.
`pathlib` collapses the leading `./`, so `str(Path(root) / filename)` is the
root-relative path joined with `/` (modelled by `joinPath` with the empty
prefix at the top).  A file node carries a `readable` flag: `readable = false`
models `open`/`read` raising, which the script reports and skips. -/

mutual
inductive FSNode : Type where
  | file (name : String) (readable : Bool) (content : List Nat) : FSNode
  | dir (name : String) (children : FSList) : FSNode

inductive FSList : Type where
  | nil : FSList
  | cons (head : FSNode) (tail : FSList) : FSList
end

/-- The pruning test of the walk: keep a directory `d` iff
`not d.startswith(".") and d not in ["venv", "__pycache__"]`
(`startswith` is an anchored match, modelled by `prefixOfList`). -/
def dirKept (d : String) : Bool :=
  !(prefixOfList ".".toList d.toList) && d != "venv" && d != "__pycache__"

/-- `str(Path(root) / filename)` relative to the walk root: the empty prefix
denotes the root itself (pathlib collapses `./`). -/
def joinPath (pre name : String) : String :=
  if pre = "" then name else pre ++ "/" ++ name

/-- The key stored by `collect_files`:
`str(filepath).replace("\\", "/").lstrip("./")`.
`replace` with the one-character pattern `"\\"` is a per-character map, and
Python's `lstrip("./")` removes every leading character belonging to the set
containing the dot and the slash. -/
def githubPath (pathStr : String) : String :=
  String.mk (((pathStr.toList.map (fun c => if c == '\\' then '/' else c)).dropWhile
    (fun c => c == '.' || c == '/')))

/-- The inner `for filename in filenames` loop body of `collect_files`,
applied to the entries of one directory: ignored files are skipped, then the
file is read; on read failure it is skipped, otherwise
`files[github_path] = content`. -/
def filesOf (patterns : List String) (pre : String) : FSList → List (String × List Nat)
  | FSList.nil => []
  | FSList.cons (FSNode.file n r c) t =>
      (if should_ignore (joinPath pre n) n patterns then []
       else if r then [(githubPath (joinPath pre n), c)] else []) ++ filesOf patterns pre t
  | FSList.cons (FSNode.dir _ _) t => filesOf patterns pre t

mutual
/-- Contribution of one directory entry to the recursive descent of
`os.walk`: a file contributes nothing here (it was handled by `filesOf`),
and a surviving subdirectory contributes its own files first and then its
descendants. -/
def nodeDescend (patterns : List String) : String → FSNode → List (String × List Nat)
  | _, FSNode.file _ _ _ => []
  | pre, FSNode.dir d cs =>
      if dirKept d then
        filesOf patterns (joinPath pre d) cs ++ recurseDirs patterns (joinPath pre d) cs
      else []

/-- The recursive descent of `os.walk` into the surviving subdirectories, in
order. -/
def recurseDirs (patterns : List String) : String → FSList → List (String × List Nat)
  | _, FSList.nil => []
  | pre, FSList.cons h t => nodeDescend patterns pre h ++ recurseDirs patterns pre t
end

/-- One directory of the walk: its own files, then the recursive descent. -/
def collectDir (patterns : List String) (pre : String) (children : FSList) :
    List (String × List Nat) :=
  filesOf patterns pre children ++ recurseDirs patterns pre children

/-- `collect_files()` over a modelled tree rooted at the current directory:
the resulting insertion sequence of the `files` dict, in walk order.
`patterns` models the result of `read_gitignore()`. -/
def collect_files (patterns : List String) (rootChildren : FSList) :
    List (String × List Nat) :=
  collectDir patterns "" rootChildren

/-! ## Reference definitions for the collection claims -/

/-- Modelled from the spec: the key normalization as the specification words
it — platform separators replaced by forward slashes and a leading
current-directory marker `./` stripped, with nothing else removed.  Used
only to compare the spec's description with `githubPath`. -/
def specGithubPath (pathStr : String) : String :=
  let t := pathStr.toList.map (fun c => if c == '\\' then '/' else c)
  String.mk (if t.take 2 = ['.', '/'] then t.drop 2 else t)

/-- `FileIn pre l p n r c`: starting from a directory whose root-relative
path string is `pre`, the walk can reach (descending only through
directories kept by the pruning step) a regular file whose full path string
is `p`, final segment `n`, readability `r` and raw content `c`.  This is an
independent, relational description of which files the tree offers to the
collector. -/
inductive FileIn : String → FSList → String → String → Bool → List Nat → Prop where
  | head (pre n : String) (r : Bool) (c : List Nat) (t : FSList) :
      FileIn pre (FSList.cons (FSNode.file n r c) t) (joinPath pre n) n r c
  | tail {pre p n : String} {r : Bool} {c : List Nat} (x : FSNode) {t : FSList} :
      FileIn pre t p n r c → FileIn pre (FSList.cons x t) p n r c
  | in_dir {pre : String} (d : String) {p n : String} {r : Bool} {c : List Nat}
      {cs : FSList} {t : FSList} :
      dirKept d = true → FileIn (joinPath pre d) cs p n r c →
      FileIn pre (FSList.cons (FSNode.dir d cs) t) p n r c

/-- Removes every unreadable file from a tree (recursively), leaving all
other entries in place.  Used to state that a read failure only skips the
failing file. -/
def dropUnreadable : FSList → FSList
  | FSList.nil => FSList.nil
  | FSList.cons (FSNode.file n r c) t =>
      if r then FSList.cons (FSNode.file n r c) (dropUnreadable t) else dropUnreadable t
  | FSList.cons (FSNode.dir d cs) t =>
      FSList.cons (FSNode.dir d (dropUnreadable cs)) (dropUnreadable t)

/-! ## UTF-8 decoding and base64 encoding (Strategy B content handling)

`content.decode("utf-8")` succeeds exactly on well-formed UTF-8
(RFC 3629: no overlong forms, no surrogates, nothing above `0x10FFFF`);
`utf8Decode` implements that decoder.  `base64.b64encode` is the standard
base64 alphabet with `=` padding. -/

/-- Is `b` a UTF-8 continuation byte (`0x80..0xBF`)? -/
def isCont (b : Nat) : Bool := 0x80 ≤ b && b < 0xC0

/-- Strict UTF-8 decoding of a byte sequence; `none` models
`UnicodeDecodeError`. -/
def utf8Decode : List Nat → Option (List Char)
  | [] => some []
  | b :: rest =>
    if b < 0x80 then
      (utf8Decode rest).map (fun cs => Char.ofNat b :: cs)
    else if b < 0xC2 then none
    else if b < 0xE0 then
      match rest with
      | b2 :: rest2 =>
        if isCont b2 then
          (utf8Decode rest2).map (fun cs => Char.ofNat ((b - 0xC0) * 0x40 + (b2 - 0x80)) :: cs)
        else none
      | [] => none
    else if b < 0xF0 then
      match rest with
      | b2 :: b3 :: rest3 =>
        if isCont b2 && isCont b3 && (b != 0xE0 || 0xA0 ≤ b2) && (b != 0xED || b2 < 0xA0) then
          (utf8Decode rest3).map (fun cs =>
            Char.ofNat ((b - 0xE0) * 0x1000 + (b2 - 0x80) * 0x40 + (b3 - 0x80)) :: cs)
        else none
      | _ => none
    else if b < 0xF5 then
      match rest with
      | b2 :: b3 :: b4 :: rest4 =>
        if isCont b2 && isCont b3 && isCont b4
            && (b != 0xF0 || 0x90 ≤ b2) && (b != 0xF4 || b2 < 0x90) then
          (utf8Decode rest4).map (fun cs =>
            Char.ofNat
              ((b - 0xF0) * 0x40000 + (b2 - 0x80) * 0x1000 + (b3 - 0x80) * 0x40 + (b4 - 0x80)) :: cs)
        else none
      | _ => none
    else none

/-- The standard base64 alphabet. -/
def base64Chars : List Char :=
  "ABCDEFGHIJKLMNOPQRSTUVWXYZabcdefghijklmnopqrstuvwxyz0123456789+/".toList

/-- The `i`-th base64 digit. -/
def b64digit (i : Nat) : Char := base64Chars.getD i 'A'

/-- `base64.b64encode` on raw bytes, as a character sequence (the script
re-decodes the ASCII result with `.decode("utf-8")`, which cannot fail). -/
def base64Encode : List Nat → List Char
  | [] => []
  | [b1] => [b64digit (b1 / 4), b64digit (b1 % 4 * 16), '=', '=']
  | [b1, b2] =>
      [b64digit (b1 / 4), b64digit (b1 % 4 * 16 + b2 / 16), b64digit (b2 % 16 * 4), '=']
  | b1 :: b2 :: b3 :: rest =>
      b64digit (b1 / 4) :: b64digit (b1 % 4 * 16 + b2 / 16) ::
        b64digit (b2 % 16 * 4 + b3 / 64) :: b64digit (b3 % 64) :: base64Encode rest

/-! ## Strategy B: per-file publish (`push_to_github_v2.py`, `main`) -/

/-- The commit message of `push_to_github_v2.py`. -/
def commitMsgB : String := "🚀 Deploy Invoice AI to Streamlit Cloud"

/-- Python `str.lower()` restricted to the ASCII case mapping, which is the
case relevant to the literal needle `"exists"`. -/
def strLower (s : String) : String := String.mk (s.toList.map Char.toLower)

/-- The content preparation of the per-file loop:
`content.decode("utf-8")`, and on failure
`base64.b64encode(content).decode("utf-8")` with the local variable
`encoding` set to `"base64"`.  Returns `(file_content, encoding)`. -/
def prepareContent (content : List Nat) : String × Option String :=
  match utf8Decode content with
  | some cs => (String.mk cs, none)
  | none => (String.mk (base64Encode content), some "base64")

/-- The create-file request issued by
`repo.create_file(path=filepath, message=commit_msg, content=file_content, branch="main")`.
These four fields are the entire payload of the call; the local `encoding`
variable is not among its arguments. -/
structure CreateFileRequest where
  path : String
  message : String
  content : String
  branch : String
deriving DecidableEq

/-- Builds the request the loop issues for one collected entry. -/
def buildRequest (filepath : String) (content : List Nat) : CreateFileRequest :=
  { path := filepath, message := commitMsgB, content := (prepareContent content).1,
    branch := "main" }

/-- Per-file outcome classification of the v2 loop. -/
inductive Outcome where
  | created
  | alreadyExists
  | failed
deriving DecidableEq

/-- The `except GithubException` classification:
`"409" in str(e) or "exists" in str(e).lower()` means already-exists,
anything else is a reported failure. -/
def classifyError (msg : String) : Outcome :=
  if isSubstr "409" msg || isSubstr "exists" (strLower msg) then Outcome.alreadyExists
  else Outcome.failed

/-- Insertion of one entry into a key-sorted list (`sorted` comparison on
the path, which is the first tuple component; collected keys are unique, so
ties cannot influence the order). -/
def insertByKey (x : String × List Nat) : List (String × List Nat) → List (String × List Nat)
  | [] => [x]
  | y :: ys => if strLe x.1 y.1 then x :: y :: ys else y :: insertByKey x ys

/-- `sorted(files.items())`: the collected entries in ascending key order. -/
def sortByKey : List (String × List Nat) → List (String × List Nat)
  | [] => []
  | x :: xs => insertByKey x (sortByKey xs)

/-- One iteration of the v2 loop.  `remote` models the hosting service: it
answers a create-file request with `none` (success) or with the message of
the raised `GithubException`. -/
def runFile (remote : CreateFileRequest → Option String) (e : String × List Nat) :
    CreateFileRequest × Outcome :=
  let req := buildRequest e.1 e.2
  match remote req with
  | none => (req, Outcome.created)
  | some msg => (req, classifyError msg)

/-- The whole per-file publish loop of `push_to_github_v2.py`: every
collected entry, in sorted key order, produces exactly one request and one
classified outcome; no iteration aborts the loop. -/
def strategyB (remote : CreateFileRequest → Option String)
    (files : List (String × List Nat)) : List (CreateFileRequest × Outcome) :=
  (sortByKey files).map (runFile remote)

/-- The `main` of `push_to_github_v2.py` after collection: an empty mapping
exits with status 1 before any create-file request; otherwise the per-file
loop runs. -/
def mainB_publish (files : List (String × List Nat))
    (remote : CreateFileRequest → Option String) :
    Except Nat (List (CreateFileRequest × Outcome)) :=
  if files.isEmpty then Except.error 1 else Except.ok (strategyB remote files)

/-! ## Strategy A: atomic tree/commit publish (`push_to_github.py`, `main`) -/

/-- The tip of an existing branch: the data the script extracts from
`repo.get_branch(...)` — `branch.commit` (the tip commit, used as the
parent) and `branch.commit.commit.tree` (its tree, used as the base tree).
Shas are abstracted as naturals. -/
structure BranchInfo where
  commitSha : Nat
  treeSha : Nat
deriving DecidableEq

/-- The branches of the target repository that exist; `none` models
`get_branch` raising `GithubException`. -/
structure RepoState where
  mainBranch : Option BranchInfo
  masterBranch : Option BranchInfo

/-- The branch-resolution step: try `"main"`, fall back to `"master"`,
else the repository is empty. -/
def resolveBranch (r : RepoState) : Option BranchInfo :=
  match r.mainBranch with
  | some b => some b
  | none => r.masterBranch

/-- A git commit as created by `repo.create_git_commit`. -/
structure GitCommit where
  message : String
  treeSha : Nat
  parents : List Nat
deriving DecidableEq

/-- The remote write calls the scripts can issue. -/
inductive ApiCall where
  | createTree (baseTree : Option Nat)
  | createCommit (parents : List Nat)
  | editRef (branch : String) (sha : Nat)
  | createRef (branch : String) (sha : Nat)
deriving DecidableEq

/-- Is a call a commit creation? -/
def isCreateCommitCall : ApiCall → Bool
  | ApiCall.createCommit _ => true
  | _ => false

/-- The commit message of `push_to_github.py`. -/
def commitMsgA : String :=
  "🚀 Deploy Invoice AI to Streamlit Cloud\n\n- Added vision.py (Streamlit app)\n- Added Dockerfile for containerization\n- Added GitHub Actions CI workflow\n- Added Streamlit config and deployment files"

/-- The ref-update step: `edit` on `heads/main` if it exists, else `edit` on
`heads/master` if it exists, else `create_git_ref` for `refs/heads/main`. -/
def refCalls (r : RepoState) (commitSha : Nat) : List ApiCall :=
  match r.mainBranch with
  | some _ => [ApiCall.editRef "main" commitSha]
  | none =>
    match r.masterBranch with
    | some _ => [ApiCall.editRef "master" commitSha]
    | none => [ApiCall.createRef "main" commitSha]

/-- Result of one Strategy A invocation.  `newTreeSha`/`newCommitSha` are
the identifiers the remote assigns to the created objects (parameters of the
model); the script creates exactly the recorded commit and issues exactly
the recorded write calls, in order.  (The tree elements carry the collected
paths; their textual content — bytes decoded with lossy replacement — is not
consumed by any claim and is not modelled further.) -/
structure StrategyAOutcome where
  baseTree : Option Nat
  commit : GitCommit
  calls : List ApiCall

/-- Strategy A after collection succeeded: resolve the base branch, create
one tree (on top of the base tree if one resolved), create one commit whose
parents are the resolved tip if any, then update or create the branch ref. -/
def strategyA (r : RepoState) (newTreeSha newCommitSha : Nat) : StrategyAOutcome :=
  let base := resolveBranch r
  let baseTree := base.map BranchInfo.treeSha
  let parents :=
    match base with
    | some b => [b.commitSha]
    | none => []
  { baseTree := baseTree
    commit := { message := commitMsgA, treeSha := newTreeSha, parents := parents }
    calls := [ApiCall.createTree baseTree, ApiCall.createCommit parents]
      ++ refCalls r newCommitSha }

/-- The `main` of `push_to_github.py` after collection: an empty mapping
exits with status 1 before any tree/commit/ref call; otherwise the atomic
publish runs. -/
def mainA_publish (files : List (String × List Nat)) (r : RepoState)
    (newTreeSha newCommitSha : Nat) : Except Nat StrategyAOutcome :=
  if files.isEmpty then Except.error 1
  else Except.ok (strategyA r newTreeSha newCommitSha)

/-! ## Concrete inputs used by counterexamples and witnesses -/

/-- A root listing holding one hidden file named `.gitignore`. -/
def hiddenFileTree : FSList :=
  FSList.cons (FSNode.file ".gitignore" true [35]) FSList.nil

/-- A root listing holding one ordinary readable file. -/
def demoTree : FSList :=
  FSList.cons (FSNode.file "app.py" true [65]) FSList.nil

/-- A root listing with one unreadable file and one readable file. -/
def mixedTree : FSList :=
  FSList.cons (FSNode.file "bad.bin" false [9])
    (FSList.cons (FSNode.file "app.py" true [65]) FSList.nil)

/-- A remote that answers one particular path with a conflict error and
accepts everything else. -/
def exRemote : CreateFileRequest → Option String :=
  fun req => if req.path = "b.txt" then some "409 Conflict" else none

/-! ## Substring and ignore-predicate lemmas -/

theorem prefixOfList_iff : ∀ (nd hs : List Char),
    prefixOfList nd hs = true ↔ ∃ t, hs = nd ++ t
  | [], hs => by simp [prefixOfList]
  | _ :: _, [] => by simp [prefixOfList]
  | a :: as, b :: bs => by
    simp only [prefixOfList, Bool.and_eq_true, beq_iff_eq, prefixOfList_iff as bs,
      List.cons_append, List.cons.injEq]
    constructor
    · rintro ⟨rfl, t, rfl⟩; exact ⟨t, rfl, rfl⟩
    · rintro ⟨t, rfl, rfl⟩; exact ⟨rfl, t, rfl⟩

theorem substrOfList_iff : ∀ (nd hs : List Char),
    substrOfList nd hs = true ↔ ∃ u v, hs = u ++ nd ++ v
  | nd, [] => by
    simp only [substrOfList, prefixOfList_iff]
    constructor
    · rintro ⟨t, ht⟩
      exact ⟨[], t, ht⟩
    · rintro ⟨u, v, huv⟩
      have h0 : u = [] ∧ nd = [] ∧ v = [] := by
        have h1 := huv.symm
        simp only [List.append_eq_nil] at h1
        tauto
      exact ⟨[], by simp [h0.2.1]⟩
  | nd, c :: t => by
    simp only [substrOfList, Bool.or_eq_true, prefixOfList_iff, substrOfList_iff nd t]
    constructor
    · rintro (⟨u, hu⟩ | ⟨u, v, huv⟩)
      · exact ⟨[], u, by simpa using hu⟩
      · exact ⟨c :: u, v, by simp [huv]⟩
    · rintro ⟨u, v, huv⟩
      cases u with
      | nil => exact Or.inl ⟨v, by simpa using huv⟩
      | cons u0 us =>
        right
        refine ⟨us, v, ?_⟩
        have := huv
        simp only [List.cons_append, List.cons.injEq] at this
        exact this.2

/-- The ignore predicate holds exactly when some rule occurs as a substring
of the path string or equals the final segment. -/
theorem should_ignore_iff (patterns : List String) (pathStr name : String) :
    should_ignore pathStr name patterns = true ↔
      ∃ pat ∈ patterns,
        (∃ u v, pathStr.toList = u ++ pat.toList ++ v) ∨ name = pat := by
  simp only [should_ignore, List.any_eq_true, Bool.or_eq_true, beq_iff_eq,
    isSubstr, substrOfList_iff]

/-- Adding rules can only turn non-ignored into ignored, never back. -/
theorem should_ignore_mono {P Q : List String} (hPQ : ∀ r ∈ P, r ∈ Q)
    (pathStr name : String) (h : should_ignore pathStr name P = true) :
    should_ignore pathStr name Q = true := by
  rcases (should_ignore_iff P pathStr name).mp h with ⟨pat, hmem, hcase⟩
  exact (should_ignore_iff Q pathStr name).mpr ⟨pat, hPQ pat hmem, hcase⟩

/-! ## Collection lemmas -/

/-- Entries collected from a suffix of a directory listing are still
collected when an entry is put in front. -/
theorem mem_collectDir_cons (patterns : List String) (pre : String) (x : FSNode) (t : FSList)
    {e : String × List Nat} (h : e ∈ collectDir patterns pre t) :
    e ∈ collectDir patterns pre (FSList.cons x t) := by
  rcases List.mem_append.mp h with h1 | h2
  · refine List.mem_append.mpr (Or.inl ?_)
    cases x with
    | file n r c => simp only [filesOf, List.mem_append]; exact Or.inr h1
    | dir d cs => simpa only [filesOf] using h1
  · refine List.mem_append.mpr (Or.inr ?_)
    simp only [recurseDirs, List.mem_append]
    exact Or.inr h2

/-- Completeness of the walk: every reachable, readable, non-ignored file
contributes its entry to the collected sequence. -/
theorem collect_complete (patterns : List String) :
    ∀ {pre : String} {l : FSList} {p n : String} {c : List Nat},
      FileIn pre l p n true c → should_ignore p n patterns = false →
      (githubPath p, c) ∈ collectDir patterns pre l := by
  have aux : ∀ {pre : String} {l : FSList} {p n : String} {r : Bool} {c : List Nat},
      FileIn pre l p n r c → r = true → should_ignore p n patterns = false →
      (githubPath p, c) ∈ collectDir patterns pre l := by
    intro pre l p n r c h
    induction h with
    | head pre n r c t =>
      intro hr hig
      subst hr
      simp [collectDir, filesOf, hig]
    | tail x hsub ih =>
      intro hr hig
      exact mem_collectDir_cons patterns _ x _ (ih hr hig)
    | in_dir d hkept hsub ih =>
      intro hr hig
      refine List.mem_append.mpr (Or.inr ?_)
      simp only [recurseDirs, nodeDescend, hkept, if_true, List.mem_append]
      exact Or.inl (List.mem_append.mp (ih hr hig))
  intro pre l p n c h hig
  exact aux h rfl hig

/-- Soundness of the walk: every collected entry comes from a reachable,
readable, non-ignored file, and its key is the normalized path. -/
theorem collect_sound (patterns : List String) :
    ∀ (pre : String) (l : FSList) (k : String) (c : List Nat),
      (k, c) ∈ collectDir patterns pre l →
      ∃ p n, FileIn pre l p n true c ∧ should_ignore p n patterns = false ∧
        k = githubPath p
  | pre, FSList.nil, k, c, h => by
    simp [collectDir, filesOf, recurseDirs] at h
  | pre, FSList.cons (FSNode.file n r fc) t, k, c, h => by
    rcases List.mem_append.mp h with h1 | h2
    · simp only [filesOf] at h1
      rcases List.mem_append.mp h1 with hseg | ht
      · by_cases hig : should_ignore (joinPath pre n) n patterns
        · simp [hig] at hseg
        · cases r with
          | false => simp [hig] at hseg
          | true =>
            simp only [hig, if_false, if_true, Bool.false_eq_true, ite_false, ite_true,
              List.mem_singleton, Prod.mk.injEq] at hseg
            obtain ⟨hk, hc⟩ := hseg
            subst hc
            exact ⟨joinPath pre n, n, FileIn.head pre n true c t,
              Bool.not_eq_true _ ▸ (by simpa using hig), hk⟩
      · obtain ⟨p, n', hf, hig, hk⟩ :=
          collect_sound patterns pre t k c (List.mem_append.mpr (Or.inl ht))
        exact ⟨p, n', FileIn.tail _ hf, hig, hk⟩
    · simp only [recurseDirs, nodeDescend, List.nil_append] at h2
      obtain ⟨p, n', hf, hig, hk⟩ :=
        collect_sound patterns pre t k c (List.mem_append.mpr (Or.inr h2))
      exact ⟨p, n', FileIn.tail _ hf, hig, hk⟩
  | pre, FSList.cons (FSNode.dir d cs) t, k, c, h => by
    rcases List.mem_append.mp h with h1 | h2
    · simp only [filesOf] at h1
      obtain ⟨p, n', hf, hig, hk⟩ :=
        collect_sound patterns pre t k c (List.mem_append.mpr (Or.inl h1))
      exact ⟨p, n', FileIn.tail _ hf, hig, hk⟩
    · simp only [recurseDirs] at h2
      rcases List.mem_append.mp h2 with hd | ht
      · by_cases hkept : dirKept d
        · simp only [nodeDescend, hkept, if_true] at hd
          obtain ⟨p, n', hf, hig, hk⟩ :=
            collect_sound patterns (joinPath pre d) cs k c hd
          exact ⟨p, n', FileIn.in_dir d hkept hf, hig, hk⟩
        · simp [nodeDescend, hkept] at hd
      · obtain ⟨p, n', hf, hig, hk⟩ :=
          collect_sound patterns pre t k c (List.mem_append.mpr (Or.inr ht))
        exact ⟨p, n', FileIn.tail _ hf, hig, hk⟩

/-- `filesOf` does not see the difference once unreadable files are removed:
an unreadable file contributes nothing either way. -/
theorem filesOf_drop (patterns : List String) :
    ∀ (pre : String) (l : FSList),
      filesOf patterns pre (dropUnreadable l) = filesOf patterns pre l
  | _, FSList.nil => rfl
  | pre, FSList.cons (FSNode.file n r c) t => by
    cases r with
    | false =>
      simp [dropUnreadable, filesOf, filesOf_drop patterns pre t]
    | true =>
      simp [dropUnreadable, filesOf, filesOf_drop patterns pre t]
  | pre, FSList.cons (FSNode.dir d cs) t => by
    simp [dropUnreadable, filesOf, filesOf_drop patterns pre t]

/-- The recursive descent is likewise unchanged by removing unreadable
files. -/
theorem recurseDirs_drop (patterns : List String) :
    ∀ (pre : String) (l : FSList),
      recurseDirs patterns pre (dropUnreadable l) = recurseDirs patterns pre l
  | _, FSList.nil => rfl
  | pre, FSList.cons (FSNode.file n r c) t => by
    cases r with
    | false =>
      simp [dropUnreadable, recurseDirs, nodeDescend, recurseDirs_drop patterns pre t]
    | true =>
      simp [dropUnreadable, recurseDirs, nodeDescend, recurseDirs_drop patterns pre t]
  | pre, FSList.cons (FSNode.dir d cs) t => by
    simp [dropUnreadable, recurseDirs, nodeDescend, filesOf_drop,
      recurseDirs_drop patterns (joinPath pre d) cs, recurseDirs_drop patterns pre t]

/-- Under a larger rule set, the per-directory file pass yields a sublist of
what the smaller rule set yields. -/
theorem filesOf_sublist {P Q : List String} (hPQ : ∀ r ∈ P, r ∈ Q) :
    ∀ (pre : String) (l : FSList),
      (filesOf Q pre l).Sublist (filesOf P pre l)
  | _, FSList.nil => List.Sublist.refl _
  | pre, FSList.cons (FSNode.file n r c) t => by
    by_cases hQ : should_ignore (joinPath pre n) n Q = true
    · simp only [filesOf, hQ, if_true]
      exact (filesOf_sublist hPQ pre t).trans (List.sublist_append_right _ _)
    · have hP : should_ignore (joinPath pre n) n P = false := by
        by_contra hP
        exact hQ (should_ignore_mono hPQ _ _ (by simpa using hP))
      have hQ' : should_ignore (joinPath pre n) n Q = false := by simpa using hQ
      simp only [filesOf, hP, hQ']
      exact (List.Sublist.refl _).append (filesOf_sublist hPQ pre t)
  | pre, FSList.cons (FSNode.dir d cs) t => by
    simpa only [filesOf] using filesOf_sublist hPQ pre t

/-- Under a larger rule set, the recursive descent yields a sublist of what
the smaller rule set yields. -/
theorem recurseDirs_sublist {P Q : List String} (hPQ : ∀ r ∈ P, r ∈ Q) :
    ∀ (pre : String) (l : FSList),
      (recurseDirs Q pre l).Sublist (recurseDirs P pre l)
  | _, FSList.nil => List.Sublist.refl _
  | pre, FSList.cons (FSNode.file n r c) t => by
    simpa only [recurseDirs, nodeDescend, List.nil_append]
      using recurseDirs_sublist hPQ pre t
  | pre, FSList.cons (FSNode.dir d cs) t => by
    simp only [recurseDirs, nodeDescend]
    by_cases hkept : dirKept d
    · simp only [hkept, if_true]
      exact ((filesOf_sublist hPQ (joinPath pre d) cs).append
        (recurseDirs_sublist hPQ (joinPath pre d) cs)).append
        (recurseDirs_sublist hPQ pre t)
    · simp only [hkept, Bool.false_eq_true, ite_false, List.nil_append]
      exact recurseDirs_sublist hPQ pre t

/-! ## Sorting lemmas (for the per-file publish order) -/

theorem charListLe_total : ∀ (a b : List Char),
    charListLe a b = true ∨ charListLe b a = true
  | [], _ => Or.inl rfl
  | _ :: _, [] => Or.inr rfl
  | a :: as, b :: bs => by
    by_cases h1 : a < b
    · left; simp [charListLe, h1]
    · by_cases h2 : b < a
      · right; simp [charListLe, h2]
      · cases charListLe_total as bs with
        | inl h => left; simp [charListLe, h1, h2, h]
        | inr h => right; simp [charListLe, h1, h2, h]

theorem charListLe_trans : ∀ {a b c : List Char},
    charListLe a b = true → charListLe b c = true → charListLe a c = true
  | [], _, _, _, _ => rfl
  | _ :: _, [], _, h1, _ => by simp [charListLe] at h1
  | _ :: _, _ :: _, [], _, h2 => by simp [charListLe] at h2
  | a :: as, b :: bs, c :: cs, h1, h2 => by
    by_cases hab : a < b
    · by_cases hbc : b < c
      · simp [charListLe, lt_trans hab hbc]
      · by_cases hcb : c < b
        · simp only [charListLe, hbc, if_false, hcb, if_true] at h2
          exact absurd h2 (by decide)
        · have hbceq : b = c := le_antisymm (le_of_not_lt hcb) (le_of_not_lt hbc)
          subst hbceq
          simp [charListLe, hab]
    · by_cases hba : b < a
      · simp only [charListLe, hab, if_false, hba, if_true] at h1
        exact absurd h1 (by decide)
      · have habeq : a = b := le_antisymm (le_of_not_lt hba) (le_of_not_lt hab)
        subst habeq
        simp only [charListLe, lt_irrefl, if_false] at h1
        by_cases hbc : a < c
        · simp [charListLe, hbc]
        · by_cases hcb : c < a
          · simp only [charListLe, hbc, if_false, hcb, if_true] at h2
            exact absurd h2 (by decide)
          · simp only [charListLe, hbc, if_false, hcb] at h2 ⊢
            exact charListLe_trans h1 h2

theorem strLe_total (a b : String) : strLe a b = true ∨ strLe b a = true :=
  charListLe_total a.toList b.toList

theorem strLe_trans {a b c : String} (h1 : strLe a b = true) (h2 : strLe b c = true) :
    strLe a c = true :=
  charListLe_trans h1 h2

theorem insertByKey_perm (x : String × List Nat) :
    ∀ l, (insertByKey x l).Perm (x :: l)
  | [] => List.Perm.refl _
  | y :: ys => by
    by_cases h : strLe x.1 y.1
    · simp [insertByKey, h]
    · simp only [insertByKey, h, Bool.false_eq_true, ite_false]
      exact ((insertByKey_perm x ys).cons y).trans (List.Perm.swap x y ys)

theorem sortByKey_perm : ∀ l, (sortByKey l).Perm l
  | [] => List.Perm.refl _
  | x :: xs =>
    (insertByKey_perm x (sortByKey xs)).trans ((sortByKey_perm xs).cons x)

theorem insertByKey_pairwise (x : String × List Nat) :
    ∀ {l}, List.Pairwise (fun p q => strLe p.1 q.1 = true) l →
      List.Pairwise (fun p q => strLe p.1 q.1 = true) (insertByKey x l)
  | [], _ => by simp [insertByKey]
  | y :: ys, h => by
    rcases List.pairwise_cons.mp h with ⟨hy, hys⟩
    by_cases hxy : strLe x.1 y.1
    · simp only [insertByKey, hxy, if_true]
      refine List.pairwise_cons.mpr ⟨?_, h⟩
      intro z hz
      rcases List.mem_cons.mp hz with rfl | hz'
      · exact hxy
      · exact strLe_trans hxy (hy z hz')
    · simp only [insertByKey, hxy, Bool.false_eq_true, ite_false]
      refine List.pairwise_cons.mpr ⟨?_, insertByKey_pairwise x hys⟩
      intro z hz
      have hz' := (insertByKey_perm x ys).mem_iff.mp hz
      rcases List.mem_cons.mp hz' with rfl | hz''
      · rcases strLe_total z.1 y.1 with hzy | hyz
        · exact absurd hzy hxy
        · exact hyz
      · exact hy z hz''

theorem sortByKey_pairwise : ∀ l,
    List.Pairwise (fun p q => strLe p.1 q.1 = true) (sortByKey l)
  | [] => List.Pairwise.nil
  | x :: xs => insertByKey_pairwise x (sortByKey_pairwise xs)

/-! ## Strategy B lemmas -/

/-- The request of one iteration is exactly the built request for that
entry; the outcome is a pure function of the remote's answer. -/
theorem runFile_eq (remote : CreateFileRequest → Option String) (e : String × List Nat) :
    runFile remote e =
      (buildRequest e.1 e.2,
        match remote (buildRequest e.1 e.2) with
        | none => Outcome.created
        | some msg => classifyError msg) := by
  cases h : remote (buildRequest e.1 e.2) <;> simp [runFile, h]

/-- The attempted paths of the loop are the sorted keys. -/
theorem strategyB_paths (remote : CreateFileRequest → Option String)
    (files : List (String × List Nat)) :
    (strategyB remote files).map (fun pr => pr.1.path)
      = (sortByKey files).map Prod.fst := by
  unfold strategyB
  rw [List.map_map]
  refine List.map_congr_left ?_
  intro e _
  simp [Function.comp, runFile_eq, buildRequest]

/-! ## Claim theorems -/

/-- C1: the collector excludes a path if and only if some ignore rule is a
substring of the path's string form or equals the path's final segment
exactly; a path with no such match is included, subject to read success and
directory exclusions.  Part 1 characterizes `should_ignore`; part 2 shows
every reachable, readable, non-matching file is collected; part 3 shows
every collected entry comes from a reachable, readable, non-matching file. -/
theorem C1_ignore_and_collect (patterns : List String) :
    (∀ pathStr name : String,
      should_ignore pathStr name patterns = true ↔
        ∃ pat ∈ patterns,
          (∃ u v, pathStr.toList = u ++ pat.toList ++ v) ∨ name = pat) ∧
    (∀ (l : FSList) (p n : String) (c : List Nat),
      FileIn "" l p n true c → should_ignore p n patterns = false →
        (githubPath p, c) ∈ collect_files patterns l) ∧
    (∀ (l : FSList) (k : String) (c : List Nat),
      (k, c) ∈ collect_files patterns l →
        ∃ p n, FileIn "" l p n true c ∧ should_ignore p n patterns = false ∧
          k = githubPath p) :=
  ⟨fun pathStr name => should_ignore_iff patterns pathStr name,
   fun _ _ _ _ hf hig => collect_complete patterns hf hig,
   fun l k c h => collect_sound patterns "" l k c h⟩

/-- Witness for C1 at concrete inputs: an ignore rule matching the final
segment excludes, and a non-matching readable root file is collected. -/
theorem C1_witness :
    should_ignore "data/secrets.env" "secrets.env" ["secrets.env"] = true ∧
    (githubPath "app.py", [65]) ∈ collect_files ["zzz"] demoTree := by
  constructor
  · exact ((C1_ignore_and_collect ["secrets.env"]).1 "data/secrets.env" "secrets.env").mpr
      ⟨"secrets.env", by simp, Or.inr rfl⟩
  · exact (C1_ignore_and_collect ["zzz"]).2.1 demoTree "app.py" "app.py" [65]
      (by simpa [joinPath, demoTree] using FileIn.head "" "app.py" true [65] FSList.nil)
      (by decide)

/-- C2 counterexample: a root file named `.gitignore` (relative path
`.gitignore`) is stored under the key `gitignore`, because `lstrip("./")`
strips every leading dot or slash; the spec's normalization — only a leading
`./` marker removed, nothing else — would keep `.gitignore`. -/
theorem C2_counterexample :
    collect_files [] hiddenFileTree = [("gitignore", [35])] ∧
    FileIn "" hiddenFileTree ".gitignore" ".gitignore" true [35] ∧
    specGithubPath ".gitignore" = ".gitignore" ∧
    ("gitignore" : String) ≠ ".gitignore" := by
  refine ⟨by decide, ?_, by decide, by decide⟩
  simpa [joinPath, hiddenFileTree] using FileIn.head "" ".gitignore" true [35] FSList.nil

/-- C2 amended: every collected entry is keyed by its root-relative path
with backslashes replaced by forward slashes and then EVERY leading `.` or
`/` character removed (Python `lstrip("./")` semantics) — not merely a
leading `./` marker. -/
theorem C2_amended_key (patterns : List String) (l : FSList) :
    ∀ k c, (k, c) ∈ collect_files patterns l →
      ∃ p n, FileIn "" l p n true c ∧
        k = String.mk ((p.toList.map (fun ch => if ch == '\\' then '/' else ch)).dropWhile
          (fun ch => ch == '.' || ch == '/')) := by
  intro k c h
  obtain ⟨p, n, hf, _, hk⟩ := collect_sound patterns "" l k c h
  exact ⟨p, n, hf, hk⟩

/-- Witness for C2's amended statement at the hidden-file tree. -/
theorem C2_witness :
    ∃ p n, FileIn "" hiddenFileTree p n true [35] ∧
      ("gitignore" : String) =
        String.mk ((p.toList.map (fun ch => if ch == '\\' then '/' else ch)).dropWhile
          (fun ch => ch == '.' || ch == '/')) :=
  C2_amended_key [] hiddenFileTree "gitignore" [35] (by decide)

/-- C3: under Strategy B, a remote error whose message contains `"409"` or
contains `"exists"` case-insensitively is classified already-exists, any
other remote error is classified failed, and the loop still produces one
outcome per collected file. -/
theorem C3_classification (remote : CreateFileRequest → Option String)
    (files : List (String × List Nat)) :
    (strategyB remote files).length = files.length ∧
    ∀ req o msg, (req, o) ∈ strategyB remote files → remote req = some msg →
      ((isSubstr "409" msg || isSubstr "exists" (strLower msg)) = true →
        o = Outcome.alreadyExists) ∧
      ((isSubstr "409" msg || isSubstr "exists" (strLower msg)) = false →
        o = Outcome.failed) := by
  constructor
  · rw [strategyB, List.length_map]
    exact (sortByKey_perm files).length_eq
  · intro req o msg hmem hrem
    obtain ⟨e, hin, heq⟩ := List.mem_map.mp hmem
    rw [runFile_eq] at heq
    cases heq
    rw [hrem]
    constructor
    · intro hcond
      simp [classifyError, hcond]
    · intro hcond
      simp [classifyError, hcond]

/-- Witness for C3: a one-file run whose only request draws a conflict
message still reports one outcome, classified already-exists. -/
theorem C3_witness :
    (strategyB exRemote [("b.txt", [66])]).length = [("b.txt", [66])].length ∧
    Outcome.alreadyExists = Outcome.alreadyExists :=
  ⟨(C3_classification exRemote [("b.txt", [66])]).1,
   ((C3_classification exRemote [("b.txt", [66])]).2 (buildRequest "b.txt" [66])
      Outcome.alreadyExists "409 Conflict" (by decide) (by decide)).1 (by decide)⟩

/-- C4 counterexample: the binary marker does not accompany the create-file
request.  A binary content (invalid UTF-8) and a text content whose decoded
text equals the other's base64 form produce identical requests, although one
is marked binary and the other is not — so no explicit encoding indication
is part of the request. -/
theorem C4_counterexample :
    (prepareContent [255]).2 = some "base64" ∧
    (prepareContent [47, 119, 61, 61]).2 = none ∧
    buildRequest "img.png" [255] = buildRequest "img.png" [47, 119, 61, 61] ∧
    ([255] : List Nat) ≠ [47, 119, 61, 61] := by
  refine ⟨by decide, by decide, by decide, by decide⟩

/-- C4 amended: on UTF-8 decode failure the transmitted content is the
base64 encoding of the raw bytes and the local `encoding` variable marks the
record as binary, but the request itself carries no encoding indication (its
fields are path, message, content and branch only); on decode success the
decoded text is transmitted unchanged. -/
theorem C4_amended (path : String) (content : List Nat) :
    (utf8Decode content = none →
      (buildRequest path content).content = String.mk (base64Encode content) ∧
      (prepareContent content).2 = some "base64") ∧
    (∀ cs, utf8Decode content = some cs →
      (buildRequest path content).content = String.mk cs ∧
      (prepareContent content).2 = none) := by
  constructor
  · intro h
    simp [buildRequest, prepareContent, h]
  · intro cs h
    simp [buildRequest, prepareContent, h]

/-- Witness for C4's amended statement: a binary byte is base64-transmitted
and locally marked; an ASCII byte is transmitted as its decoded text. -/
theorem C4_witness :
    ((buildRequest "img.png" [255]).content = String.mk (base64Encode [255]) ∧
      (prepareContent [255]).2 = some "base64") ∧
    ((buildRequest "a.txt" [104]).content = String.mk ['h'] ∧
      (prepareContent [104]).2 = none) :=
  ⟨(C4_amended "img.png" [255]).1 (by decide),
   (C4_amended "a.txt" [104]).2 ['h'] (by decide)⟩

/-- C5: branch resolution tries `"main"` first, falls back to `"master"`,
and with neither present the publish proceeds with no base tree and no
parent commit. -/
theorem C5_branch_resolution (r : RepoState) (tSha cSha : Nat) :
    (∀ b, r.mainBranch = some b → resolveBranch r = some b ∧
      (strategyA r tSha cSha).baseTree = some b.treeSha) ∧
    (∀ b, r.mainBranch = none → r.masterBranch = some b → resolveBranch r = some b ∧
      (strategyA r tSha cSha).baseTree = some b.treeSha) ∧
    (r.mainBranch = none → r.masterBranch = none →
      (strategyA r tSha cSha).baseTree = none ∧
      (strategyA r tSha cSha).commit.parents = []) := by
  refine ⟨?_, ?_, ?_⟩
  · intro b hb
    constructor
    · simp [resolveBranch, hb]
    · simp [strategyA, resolveBranch, hb]
  · intro b hmain hmaster
    constructor
    · simp [resolveBranch, hmain, hmaster]
    · simp [strategyA, resolveBranch, hmain, hmaster]
  · intro hmain hmaster
    constructor
    · simp [strategyA, resolveBranch, hmain, hmaster]
    · simp [strategyA, resolveBranch, hmain, hmaster]

/-- Witness for C5 on the three concrete repository states. -/
theorem C5_witness :
    (resolveBranch { mainBranch := some ⟨1, 2⟩, masterBranch := none } = some ⟨1, 2⟩ ∧
      (strategyA { mainBranch := some ⟨1, 2⟩, masterBranch := none } 5 6).baseTree = some 2) ∧
    (resolveBranch { mainBranch := none, masterBranch := some ⟨3, 4⟩ } = some ⟨3, 4⟩ ∧
      (strategyA { mainBranch := none, masterBranch := some ⟨3, 4⟩ } 5 6).baseTree = some 4) ∧
    ((strategyA { mainBranch := none, masterBranch := none } 5 6).baseTree = none ∧
      (strategyA { mainBranch := none, masterBranch := none } 5 6).commit.parents = []) :=
  ⟨(C5_branch_resolution { mainBranch := some ⟨1, 2⟩, masterBranch := none } 5 6).1 ⟨1, 2⟩ rfl,
   (C5_branch_resolution { mainBranch := none, masterBranch := some ⟨3, 4⟩ } 5 6).2.1 ⟨3, 4⟩ rfl rfl,
   (C5_branch_resolution { mainBranch := none, masterBranch := none } 5 6).2.2 rfl rfl⟩

/-- C6: every Strategy A invocation creates exactly one commit; its parent
list is the single resolved prior tip when a branch resolved, and empty when
the repository was empty. -/
theorem C6_single_commit (r : RepoState) (tSha cSha : Nat) :
    ((strategyA r tSha cSha).calls.countP isCreateCommitCall) = 1 ∧
    (∀ b, resolveBranch r = some b →
      (strategyA r tSha cSha).commit.parents = [b.commitSha]) ∧
    (resolveBranch r = none → (strategyA r tSha cSha).commit.parents = []) := by
  refine ⟨?_, ?_, ?_⟩
  · cases hm : r.mainBranch <;> cases hms : r.masterBranch <;>
      simp [strategyA, refCalls, resolveBranch, hm, hms, isCreateCommitCall,
        List.countP_cons, List.countP_nil, List.countP_append]
  · intro b hb
    simp [strategyA, hb]
  · intro hb
    simp [strategyA, hb]

/-- Witness for C6 on a repository with an existing `main` tip. -/
theorem C6_witness :
    ((strategyA { mainBranch := some ⟨9, 4⟩, masterBranch := none } 5 6).calls.countP
        isCreateCommitCall) = 1 ∧
    (strategyA { mainBranch := some ⟨9, 4⟩, masterBranch := none } 5 6).commit.parents
        = [9] :=
  ⟨(C6_single_commit { mainBranch := some ⟨9, 4⟩, masterBranch := none } 5 6).1,
   (C6_single_commit { mainBranch := some ⟨9, 4⟩, masterBranch := none } 5 6).2.1 ⟨9, 4⟩ rfl⟩

/-- C7: a read failure is local — removing the unreadable files from the
tree does not change the collected sequence at all (the failing file is
skipped, no exception propagates, all other files still appear), and every
collected entry does come from a readable file. -/
theorem C7_unreadable_skipped (patterns : List String) (l : FSList) :
    collect_files patterns (dropUnreadable l) = collect_files patterns l ∧
    ∀ k c, (k, c) ∈ collect_files patterns l →
      ∃ p n, FileIn "" l p n true c ∧ k = githubPath p := by
  constructor
  · unfold collect_files collectDir
    rw [filesOf_drop, recurseDirs_drop]
  · intro k c h
    obtain ⟨p, n, hf, _, hk⟩ := collect_sound patterns "" l k c h
    exact ⟨p, n, hf, hk⟩

/-- Witness for C7: with one unreadable and one readable file, dropping the
unreadable file leaves the collection unchanged, and the readable file's
entry is accounted for. -/
theorem C7_witness :
    collect_files [] (dropUnreadable mixedTree) = collect_files [] mixedTree ∧
    ∃ p n, FileIn "" mixedTree p n true [65] ∧ "app.py" = githubPath p :=
  ⟨(C7_unreadable_skipped [] mixedTree).1,
   (C7_unreadable_skipped [] mixedTree).2 "app.py" [65] (by decide)⟩

/-- C8: an empty collected mapping makes both scripts exit with status 1
(non-zero) before issuing any tree, commit, ref or file creation request —
the error branch carries no remote calls at all. -/
theorem C8_empty_exit (r : RepoState) (tSha cSha : Nat)
    (remote : CreateFileRequest → Option String) :
    mainA_publish [] r tSha cSha = Except.error 1 ∧
    mainB_publish [] remote = Except.error 1 ∧
    (1 : Nat) ≠ 0 :=
  ⟨rfl, rfl, by decide⟩

/-- C9: the per-file requests are issued in ascending path order — the
attempted path sequence is sorted, is a permutation of the mapping's keys,
and does not depend on the remote's answers, so repeated runs are
deterministic. -/
theorem C9_sorted_order (remote : CreateFileRequest → Option String)
    (files : List (String × List Nat)) :
    List.Pairwise (fun a b => strLe a b = true)
      ((strategyB remote files).map (fun pr => pr.1.path)) ∧
    ((strategyB remote files).map (fun pr => pr.1.path)).Perm (files.map Prod.fst) ∧
    ∀ remote2, (strategyB remote2 files).map (fun pr => pr.1.path)
      = (strategyB remote files).map (fun pr => pr.1.path) := by
  refine ⟨?_, ?_, ?_⟩
  · rw [strategyB_paths]
    exact List.pairwise_map.mpr (sortByKey_pairwise files)
  · rw [strategyB_paths]
    exact (sortByKey_perm files).map Prod.fst
  · intro remote2
    rw [strategyB_paths, strategyB_paths]

/-- C10: the ignore predicate is monotone in the rule set, and enlarging the
rule set can only remove entries from the collected sequence (it is a
sublist of the smaller-rule-set collection), never add any. -/
theorem C10_monotone {P Q : List String} (hPQ : ∀ r ∈ P, r ∈ Q) :
    (∀ pathStr name, should_ignore pathStr name P = true →
      should_ignore pathStr name Q = true) ∧
    ∀ l : FSList, (collect_files Q l).Sublist (collect_files P l) := by
  constructor
  · intro pathStr name h
    exact should_ignore_mono hPQ pathStr name h
  · intro l
    exact (filesOf_sublist hPQ "" l).append (recurseDirs_sublist hPQ "" l)

/-- Witness for C10 with concrete nested rule sets. -/
theorem C10_witness :
    should_ignore "notes/a.txt" "a.txt" ["a.txt", "b"] = true ∧
    (collect_files ["a.txt", "b"] demoTree).Sublist (collect_files ["a.txt"] demoTree) := by
  have h := C10_monotone (P := ["a.txt"]) (Q := ["a.txt", "b"])
    (by intro r hr; simp only [List.mem_singleton] at hr; simp [hr])
  exact ⟨h.1 "notes/a.txt" "a.txt" (by decide), h.2 demoTree⟩
